import Mathlib

/-!
Shallow embedding of the node-cache engine (src/_src/lib/node_cache.js) and
verification of the frozen claims about it.

Modelling conventions:
* JavaScript values that can be cached or used as keys are modelled by the
  inductive type `JsValue` (strings, integer numbers, booleans, null,
  undefined, arrays, plain objects).  JS numbers are modelled as `Int`;
  no claim involves fractional or overflow behaviour.
* The cache's plain-object container `this.data = {}` is modelled as
  `JsObj`: an association list of own entries plus the object's prototype.
  A property read `this.data[key]` falls back to the `Object.prototype`
  members (toString, valueOf, ...) when no own entry exists, and an
  assignment to the key "__proto__" invokes the inherited setter — it
  replaces the prototype and stores no own entry, exactly as in the host
  language.
* `stats.ksize`/`stats.vsize` live in `JsNum := Option Int`, where `none`
  stands for JavaScript's NaN (also absorbing `undefined` operands, since
  `int + undefined` is NaN).
* Deep cloning (`useClones`) copies a value; in a value model a copy is the
  value itself, so the `asClone` flags of `_wrap`/`_unwrap` are dropped.
* Thrown errors are modelled by the `Outcome.thrown` constructor carrying
  the structured error object (`name`/`errorcode` and the template data);
  the message-template rendering is out of scope.  A host `TypeError`
  (reachable only by `JSON.stringify(undefined).length` under
  `forceString`) is modelled by `Outcome.crashed`.
* Only the synchronous, value-returning calling convention is modelled; the
  trailing-callback sugar is argument reshuffling around the same logic.
-/

namespace NodeCache

/-- A JavaScript value, as far as the cache engine inspects it. -/
inductive JsValue where
  | vstr (s : String)
  | vnum (n : Int)
  | vbool (b : Bool)
  | vnull
  | vundefined
  | varr (elems : List JsValue)
  | vobj (fields : List (String × JsValue))

/-- Result of the JS `typeof` operator on a modelled value. -/
def typeofStr : JsValue → String
  | .vstr _ => "string"
  | .vnum _ => "number"
  | .vbool _ => "boolean"
  | .vnull => "object"
  | .vundefined => "undefined"
  | .varr _ => "object"
  | .vobj _ => "object"

/-- JS truthiness test, negated: `!key` in the source. -/
def falsy : JsValue → Bool
  | .vstr s => s == ""
  | .vnum n => n == 0
  | .vbool b => !b
  | .vnull => true
  | .vundefined => true
  | .varr _ => false
  | .vobj _ => false

/-- Property-key coercion performed by `this.data[ key ]`.  Keys reach the
map only after `_isInvalidKey` has passed, so only the string and number
cases are reachable; the remaining cases are given simple placeholders. -/
def propKey : JsValue → String
  | .vstr s => s
  | .vnum n => toString n
  | .vbool b => if b then "true" else "false"
  | .vnull => "null"
  | .vundefined => "undefined"
  | .varr _ => ""
  | .vobj _ => "[object Object]"

/-- lodash `isString`. -/
def isStringB : JsValue → Bool
  | .vstr _ => true
  | _ => false

/-- lodash `isArray`. -/
def isArrayB : JsValue → Bool
  | .varr _ => true
  | _ => false

/-- lodash `isNumber`. -/
def isNumberB : JsValue → Bool
  | .vnum _ => true
  | _ => false

/-- lodash `isObject` (objects and arrays; not null, not primitives). -/
def isObjectB : JsValue → Bool
  | .varr _ => true
  | .vobj _ => true
  | _ => false

/-- JS loose `== null` test (true for null and undefined). -/
def looseNullish : JsValue → Bool
  | .vnull => true
  | .vundefined => true
  | _ => false

/-- A JS number-typed statistics field: `some n` is the integer `n`, `none`
is NaN. -/
abbrev JsNum := Option Int

/-- JS addition on a statistics field; an undefined or NaN operand yields
NaN. -/
def jadd : JsNum → JsNum → JsNum
  | some a, some b => some (a + b)
  | _, _ => none

/-- JS subtraction on a statistics field; an undefined or NaN operand yields
NaN. -/
def jsub : JsNum → JsNum → JsNum
  | some a, some b => some (a - b)
  | _, _ => none

mutual
/-- Model of the host `JSON.stringify`: `none` when serialization yields
undefined (a bare `undefined` value).  String escaping is elided — no
claim depends on the rendered text, only on definedness and length
bookkeeping being applied consistently. -/
def jsonStringify : JsValue → Option String
  | .vstr s => some ("\"" ++ s ++ "\"")
  | .vnum n => some (toString n)
  | .vbool b => some (if b then "true" else "false")
  | .vnull => some "null"
  | .vundefined => none
  | .varr l => some ("[" ++ String.intercalate "," (jsonStringifyElems l) ++ "]")
  | .vobj fs => some ("\x7b" ++ String.intercalate "," (jsonStringifyFields fs) ++ "\x7d")

/-- Array elements whose serialization is undefined render as "null". -/
def jsonStringifyElems : List JsValue → List String
  | [] => []
  | v :: vs => ((jsonStringify v).getD "null") :: jsonStringifyElems vs

/-- Object fields whose serialization is undefined are skipped. -/
def jsonStringifyFields : List (String × JsValue) → List String
  | [] => []
  | (k, v) :: fs =>
    match jsonStringify v with
    | some sv => ("\"" ++ k ++ "\":" ++ sv) :: jsonStringifyFields fs
    | none => jsonStringifyFields fs
end

/-- A wrapped cache entry: `t` is the absolute expiry timestamp in ms
(0 = never expires), `v` the stored value (node_cache.js `_wrap` result). -/
structure Entry where
  t : Int
  v : JsValue

/-- The own property names of `Object.prototype` in the host environment.
A read of one of these keys on a plain object with no own entry yields
the inherited member (a function, or for "__proto__" the prototype
itself) — a non-null, truthy value. -/
def protoMemberNames : List String :=
  ["constructor", "hasOwnProperty", "isPrototypeOf", "propertyIsEnumerable",
   "toLocaleString", "toString", "valueOf", "__defineGetter__",
   "__defineSetter__", "__lookupGetter__", "__lookupSetter__", "__proto__"]

/-- The prototype of the data container: the initial `Object.prototype` of
the object literal `{}`, or — after an assignment to the key "__proto__",
which always stores a wrapped entry object — that entry. -/
inductive Proto where
  | objectProto
  | other (e : Entry)

/-- The data container `this.data`: its own entries plus its prototype. -/
structure JsObj where
  own : List (String × Entry)
  proto : Proto

/-- What a property read `this.data[key]` can produce besides undefined:
an own stored entry, an inherited `Object.prototype` member, or (through
a replaced prototype) a raw value that is not a wrapped entry. -/
inductive PropVal where
  | entry (e : Entry)
  | inherited (name : String)
  | raw (v : JsValue)

/-- The statistics record (node_cache.js constructor, lines 49-55). -/
structure Stats where
  hits : Int
  misses : Int
  keys : Int
  ksize : JsNum
  vsize : JsNum
deriving DecidableEq

/-- The recognized construction options with their defaults
(node_cache.js lines 30-46). -/
structure Options where
  forceString : Bool := false
  objectValueSize : Int := 80
  arrayValueSize : Int := 40
  stdTTL : Int := 0
  checkperiod : Int := 600
  useClones : Bool := true
  errorOnMissing : Bool := false

/-- The default configuration. -/
def defaultOptions : Options := {}

/-- The engine's mutable state: the data container and the statistics
record.  The configuration is immutable and passed separately. -/
structure State where
  data : JsObj
  stats : Stats

/-- The all-zero statistics record. -/
def zeroStats : Stats := ⟨0, 0, 0, some 0, some 0⟩

/-- State of a freshly-constructed cache: no own entries, prototype
`Object.prototype`, all-zero statistics. -/
def initialState : State := ⟨⟨[], .objectProto⟩, zeroStats⟩

/-- A structured error object as produced by `_error`: `errorcode` is the
error name and `edata` the template-data record (the message rendering is
excluded as a thin collaborator). -/
structure CacheError where
  errorcode : String
  edata : List (String × JsValue)

/-- An emitted notification. -/
inductive Event where
  | eset (key value : JsValue)
  | edel (key storedValue : JsValue)
  | eexpired (key unwrappedValue : JsValue)
  | eflush

/-- How a synchronous call ends: a return value, a thrown structured error,
or a host TypeError. -/
inductive Outcome (α : Type) where
  | ok (a : α)
  | thrown (e : CacheError)
  | crashed

/-- The full observable effect of one operation: resulting state, emitted
events in order, and the call's outcome. -/
structure OpResult (α : Type) where
  state : State
  events : List Event
  out : Outcome α

/-- Property lookup on a JS object modelled as an association list
(`this.data[ key ]` after key coercion, and reads of the mget result). -/
def dlookup {β : Type} : List (String × β) → String → Option β
  | [], _ => none
  | (k', e) :: rest, k => if k' = k then some e else dlookup rest k

/-- Property assignment on a JS object: overwrite in place, append when
absent (JS object insertion semantics). -/
def dset {β : Type} : List (String × β) → String → β → List (String × β)
  | [], k, e => [(k, e)]
  | (k', e') :: rest, k, e =>
    if k' = k then (k, e) :: rest else (k', e') :: dset rest k e

/-- Property deletion on a JS object (`delete this.data[ key ]`). -/
def ddel {β : Type} (d : List (String × β)) (k : String) : List (String × β) :=
  d.filter (fun kv => kv.1 ≠ k)

/-- The full property read `this.data[ key ]`: the own entry if present,
else the prototype chain.  Under the initial prototype the
`Object.prototype` member names yield the inherited member.  Under a
replaced prototype (an entry object), its fields "t" and "v" are found
(a read whose value is null or undefined behaves as absent for every use
the engine makes of it, so it is modelled as `none`), and the entry
object's own prototype, `Object.prototype`, still supplies the member
names behind them. -/
def jsGet (d : JsObj) (k : String) : Option PropVal :=
  match dlookup d.own k with
  | some e => some (.entry e)
  | none =>
    match d.proto with
    | .objectProto =>
      if protoMemberNames.contains k then some (.inherited k) else none
    | .other e =>
      if k = "t" then some (.raw (.vnum e.t))
      else if k = "v" then
        (if looseNullish e.v then none else some (.raw e.v))
      else if protoMemberNames.contains k then some (.inherited k)
      else none

/-- The full property write `this.data[ key ] = entry`.  For the key
"__proto__" the assignment invokes the inherited accessor: the assigned
entry (always an object) becomes the new prototype and no own entry is
stored.  Every other key gets an own entry, shadowing any inherited
member of the same name. -/
def jsSet (d : JsObj) (k : String) (e : Entry) : JsObj :=
  if k = "__proto__" then { d with proto := .other e }
  else { d with own := dset d.own k e }

/-- The property deletion `delete this.data[ key ]`: removes the own
entry; inherited members cannot be deleted. -/
def jsDel (d : JsObj) (k : String) : JsObj :=
  { d with own := ddel d.own k }

/-- The `.t` access on a property-read result (`data.t`): the expiry of an
own entry; undefined (`none`) on an inherited member; through a replaced
prototype, the "t" field of a raw object when it is a number.  (A
non-numeric "t" field, reachable only behind a replaced prototype, would
undergo numeric coercion in the host's comparison; the engine's stale
test on it is modelled as on undefined, i.e. never stale.) -/
def propT : PropVal → Option Int
  | .entry e => some e.t
  | .inherited _ => none
  | .raw v =>
    match v with
    | .vobj fs =>
      match dlookup fs "t" with
      | some (.vnum n) => some n
      | _ => none
    | _ => none

/-- The `.v` access on a property-read result (`data.v`): the stored value
of an own entry; undefined (`none`) on an inherited member; the "v"
field of a raw object through a replaced prototype. -/
def propV : PropVal → Option JsValue
  | .entry e => some e.v
  | .inherited _ => none
  | .raw v =>
    match v with
    | .vobj fs => dlookup fs "v"
    | _ => none

/-- JS truthiness of a property-read result (the `if (this.data[ key ])`
guard in `set`): entry objects and inherited members are objects or
functions, hence truthy; a raw value keeps its own truthiness. -/
def truthyP : PropVal → Bool
  | .entry _ => true
  | .inherited _ => true
  | .raw v => !falsy v

/-- The staleness test of `_check` on a property-read result:
`data.t !== 0 && data.t < Date.now()`.  When `data.t` is undefined the
first conjunct holds but the second comparison is false. -/
def staleAtB (now : Int) (data : PropVal) : Bool :=
  match propT data with
  | some t => decide (t ≠ 0) && decide (t < now)
  | none => false

/-- node_cache.js `_isInvalidKey` (lines 578-582): a key is valid iff its
`typeof` is "string" or "number". -/
def _isInvalidKey (key : JsValue) : Option CacheError :=
  if ["string", "number"].contains (typeofStr key) then none
  else some ⟨"EKEYTYPE", [("type", JsValue.vstr (typeofStr key))]⟩

/-- node_cache.js `_getKeyLength` (lines 640-642): the raw `key.length`
property.  Strings (and arrays) have a length; for a number key the
property read yields undefined (`none`). -/
def _getKeyLength : JsValue → Option Int
  | .vstr s => some (s.length : Int)
  | .varr l => some (l.length : Int)
  | _ => none

/-- node_cache.js `_getValLength` (lines 647-666).  The `forceString`
branch is `JSON.stringify(value).length`, which is a host TypeError
(`none`) when the serialization is undefined. -/
def _getValLength (opts : Options) (value : JsValue) : Option Int :=
  match value with
  | .vstr s => some (s.length : Int)
  | v =>
    if opts.forceString then (jsonStringify v).map (fun str => (str.length : Int))
    else
      match v with
      | .varr l => some (opts.arrayValueSize * l.length)
      | .vnum _ => some 8
      | .vobj fs => some (opts.objectValueSize * fs.length)
      | _ => some 0

/-- node_cache.js `_wrap` (lines 588-618): attach the expiry timestamp.
A given ttl of 0 means never expire; a nonzero given ttl is truthy and
yields `now + ttl*1000`; an absent ttl falls back to `stdTTL` with the
same two rules.  The `asClone` flag only controls deep-copying and is
dropped in the value model. -/
def _wrap (opts : Options) (now : Int) (value : JsValue) (ttl : Option Int) : Entry :=
  let livetime : Int :=
    match ttl with
    | some t => if t = 0 then 0 else now + t * 1000
    | none => if opts.stdTTL = 0 then 0 else now + opts.stdTTL * 1000
  ⟨livetime, value⟩

/-- node_cache.js `_unwrap` (lines 623-635): `value.v` when that is not
loosely null, else null.  The argument is whatever the property read
produced (an own entry, or an inherited member whose `.v` is
undefined). -/
def _unwrap (value : PropVal) : JsValue :=
  match propV value with
  | some v => if looseNullish v then JsValue.vnull else v
  | none => JsValue.vnull

/-- The `del` argument is a single key or an array of keys
(node_cache.js lines 264-266). -/
def toKeyList : JsValue → List JsValue
  | .varr l => l
  | k => [k]

/-- Loop body of `del` (node_cache.js lines 268-296): per key, validate
(aborting the batch on failure), then either remove the entry with its
statistics contributions or count a miss.  The `vsize` subtraction's
right-hand side is evaluated first, so a TypeError there leaves the
statistics and the entry untouched. -/
def delLoop (opts : Options) : State → List Event → Int → List JsValue → OpResult Int
  | s, evs, cnt, [] => ⟨s, evs, .ok cnt⟩
  | s, evs, cnt, k :: ks =>
    match _isInvalidKey k with
    | some e => ⟨s, evs, .thrown e⟩
    | none =>
      match jsGet s.data (propKey k) with
      | some data =>
        match _getValLength opts (_unwrap data) with
        | none => ⟨s, evs, .crashed⟩
        | some sub =>
          let stats' : Stats := { s.stats with
            vsize := jsub s.stats.vsize (some sub),
            ksize := jsub s.stats.ksize (_getKeyLength k),
            keys := s.stats.keys - 1 }
          delLoop opts ⟨jsDel s.data (propKey k), stats'⟩
            (evs ++ [Event.edel k ((propV data).getD JsValue.vundefined)])
            (cnt + 1) ks
      | none =>
        delLoop opts ⟨s.data, { s.stats with misses := s.stats.misses + 1 }⟩
          evs cnt ks

/-- node_cache.js `del` (lines 262-301): remove one key or a batch of keys,
returning the number of deletions. -/
def del (opts : Options) (s : State) (keys : JsValue) : OpResult Int :=
  delLoop opts s [] 0 (toKeyList keys)

/-- Result of the freshness check: the state and events after a possible
lazy eviction, and whether the entry was still fresh. -/
structure CheckResult where
  state : State
  events : List Event
  fresh : Bool

/-- node_cache.js `_check` (lines 563-573): an entry with a nonzero expiry
in the past is evicted through `del` and an `expired` notification is
emitted with the key and the unwrapped value; otherwise no effect.  The
callers pass keys that already passed validation, so the inner `del`
cannot throw; its return value is discarded as in the source. -/
def _check (opts : Options) (now : Int) (s : State) (key : JsValue)
    (data : PropVal) : CheckResult :=
  if staleAtB now data then
    let r := del opts s key
    ⟨r.state, r.events ++ [Event.eexpired key (_unwrap data)], false⟩
  else ⟨s, [], true⟩

/-- The miss branch of `get` (node_cache.js lines 105-118): count a miss,
then throw ENOTFOUND when the error-on-missing policy (global option or
per-call override) is active, else return undefined. -/
def getMiss (opts : Options) (key : JsValue) (errorOnMissing : Bool)
    (s : State) (evs : List Event) : OpResult JsValue :=
  let s' : State := { s with stats := { s.stats with misses := s.stats.misses + 1 } }
  if opts.errorOnMissing || errorOnMissing then
    ⟨s', evs, .thrown ⟨"ENOTFOUND", [("key", key)]⟩⟩
  else
    ⟨s', evs, .ok JsValue.vundefined⟩

/-- node_cache.js `get` (lines 80-119).  When `_check` reports fresh it has
not modified the state, so the second property read returns the same
entry; the model unwraps that entry directly. -/
def get (opts : Options) (now : Int) (s : State) (key : JsValue)
    (errorOnMissing : Bool) : OpResult JsValue :=
  match _isInvalidKey key with
  | some e => ⟨s, [], .thrown e⟩
  | none =>
    match jsGet s.data (propKey key) with
    | some data =>
      let c := _check opts now s key data
      if c.fresh then
        ⟨{ c.state with stats := { c.state.stats with hits := c.state.stats.hits + 1 } },
          c.events, .ok (_unwrap data)⟩
      else getMiss opts key errorOnMissing c.state c.events
    | none => getMiss opts key errorOnMissing s []

/-- What `mget` hands back when it does not throw: either the accumulated
mapping or — for a non-array argument — the EKEYSTYPE error object as an
ordinary return value. -/
inductive MgetRet where
  | merr (e : CacheError)
  | mmap (m : List (String × JsValue))

/-- Loop body of `mget` (node_cache.js lines 147-167): per key, validate
(aborting with a throw, keeping statistics already applied), then record
a hit and add the unwrapped value to the result object, or record a
miss. -/
def mgetLoop (opts : Options) (now : Int) :
    State → List Event → List (String × JsValue) → List JsValue → OpResult MgetRet
  | s, evs, acc, [] => ⟨s, evs, .ok (.mmap acc)⟩
  | s, evs, acc, k :: ks =>
    match _isInvalidKey k with
    | some e => ⟨s, evs, .thrown e⟩
    | none =>
      match jsGet s.data (propKey k) with
      | some data =>
        let c := _check opts now s k data
        if c.fresh then
          mgetLoop opts now
            { c.state with stats :=
                { c.state.stats with hits := c.state.stats.hits + 1 } }
            (evs ++ c.events)
            (dset acc (propKey k) (_unwrap data)) ks
        else
          mgetLoop opts now
            { c.state with stats :=
                { c.state.stats with misses := c.state.stats.misses + 1 } }
            (evs ++ c.events) acc ks
      | none =>
        mgetLoop opts now
          { s with stats := { s.stats with misses := s.stats.misses + 1 } }
          evs acc ks

/-- node_cache.js `mget` (lines 137-172): a non-array argument returns (not
throws) the EKEYSTYPE error object; otherwise the keys are processed in
order. -/
def mget (opts : Options) (now : Int) (s : State) (keysArg : JsValue) :
    OpResult MgetRet :=
  match keysArg with
  | .varr l => mgetLoop opts now s [] [] l
  | _ => ⟨s, [], .ok (.merr ⟨"EKEYSTYPE", []⟩)⟩

/-- The forceString serialization at the head of `set` (node_cache.js
lines 196-198): a non-string value is replaced by its JSON form when the
option is active (undefined when `JSON.stringify` yields undefined). -/
def forceStringConv (opts : Options) (value : JsValue) : JsValue :=
  if opts.forceString && !isStringB value then
    (match jsonStringify value with
     | some str => JsValue.vstr str
     | none => JsValue.vundefined)
  else value

/-- node_cache.js `set` (lines 193-240): forceString serialization, key
validation, subtraction of an overwritten entry's value size, the write,
value-size addition, and key bookkeeping for a brand-new key.  The two
`_getValLength` calls can raise a host TypeError (only for an undefined
value under `forceString`); state mutations already performed at that
point persist. -/
def set (opts : Options) (now : Int) (s : State) (key value : JsValue)
    (ttl : Option Int) : OpResult Bool :=
  let value := forceStringConv opts value
  match _isInvalidKey key with
  | some e => ⟨s, [], .thrown e⟩
  | none =>
    let pk := propKey key
    let existing : Option PropVal :=
      match jsGet s.data pk with
      | some data => if truthyP data then some data else none
      | none => none
    match existing with
    | some old =>
      match _getValLength opts (_unwrap old) with
      | none => ⟨s, [], .crashed⟩
      | some sub =>
        let vsize1 := jsub s.stats.vsize (some sub)
        let data' := jsSet s.data pk (_wrap opts now value ttl)
        match _getValLength opts value with
        | none => ⟨⟨data', { s.stats with vsize := vsize1 }⟩, [], .crashed⟩
        | some add =>
          ⟨⟨data', { s.stats with vsize := jadd vsize1 (some add) }⟩,
            [Event.eset key value], .ok true⟩
    | none =>
      let data' := jsSet s.data pk (_wrap opts now value ttl)
      match _getValLength opts value with
      | none => ⟨⟨data', s.stats⟩, [], .crashed⟩
      | some add =>
        ⟨⟨data', { s.stats with
            vsize := jadd s.stats.vsize (some add),
            ksize := jadd s.stats.ksize (_getKeyLength key),
            keys := s.stats.keys + 1 }⟩,
          [Event.eset key value], .ok true⟩

/-- node_cache.js `ttl` (lines 326-380).  A falsy effective ttl argument
(absent, or the number 0) is replaced by `stdTTL` before anything else; a
falsy key returns false before validation; for a present, fresh key a
nonnegative ttl rewraps the stored value and a negative ttl delegates to
`del`, both returning true. -/
def ttl (opts : Options) (now : Int) (s : State) (key : JsValue)
    (newTtl : Option Int) : OpResult Bool :=
  let t : Int :=
    match newTtl with
    | some x => if x = 0 then opts.stdTTL else x
    | none => opts.stdTTL
  if falsy key then ⟨s, [], .ok false⟩
  else
    match _isInvalidKey key with
    | some e => ⟨s, [], .thrown e⟩
    | none =>
      match jsGet s.data (propKey key) with
      | some data =>
        let c := _check opts now s key data
        if c.fresh then
          if 0 ≤ t then
            ⟨⟨jsSet c.state.data (propKey key)
                (_wrap opts now ((propV data).getD JsValue.vundefined) (some t)),
                c.state.stats⟩, c.events, .ok true⟩
          else
            let r := del opts c.state key
            ⟨r.state, c.events ++ r.events, .ok true⟩
        else ⟨c.state, c.events, .ok false⟩
      | none => ⟨s, [], .ok false⟩

/-- node_cache.js `getTtl` (lines 403-431): a falsy key returns undefined
before validation; a present, fresh key returns its raw expiry timestamp
(0 = never); otherwise undefined, with no hit or miss counted. -/
def getTtl (opts : Options) (now : Int) (s : State) (key : JsValue) :
    OpResult JsValue :=
  if falsy key then ⟨s, [], .ok JsValue.vundefined⟩
  else
    match _isInvalidKey key with
    | some e => ⟨s, [], .thrown e⟩
    | none =>
      match jsGet s.data (propKey key) with
      | some data =>
        let c := _check opts now s key data
        if c.fresh then
          ⟨c.state, c.events,
            .ok (match propT data with
              | some n => JsValue.vnum n
              | none => JsValue.vundefined)⟩
        else ⟨c.state, c.events, .ok JsValue.vundefined⟩
      | none => ⟨s, [], .ok JsValue.vundefined⟩

/-- node_cache.js `flushAll` (lines 501-522): empty the container, zero the
statistics, emit `flush`.  The synchronous sweep it restarts runs over
the now-empty container and has no further effect in the model. -/
def flushAll (_s : State) : State × List Event :=
  (⟨⟨[], .objectProto⟩, zeroStats⟩, [Event.eflush])

/-- node_cache.js `getStats` (lines 480-482): returns `this.stats` itself —
the engine's live record, not a copy. -/
def getStats (s : State) : Stats :=
  s.stats

/-- A caller-side field assignment on the object returned by `getStats`.
Because `getStats` returns `this.stats` itself, the JS assignment writes
the engine's own statistics record; the model applies the update to the
engine state. -/
def statsRefAssign (s : State) (f : Stats → Stats) : State :=
  { s with stats := f s.stats }

/-- One public operation of the engine, for reasoning about operation
sequences. -/
inductive Op where
  | oset (key value : JsValue) (ttl : Option Int)
  | oget (key : JsValue) (errorOnMissing : Bool)
  | omget (keysArg : JsValue)
  | odel (keys : JsValue)
  | ottl (key : JsValue) (newTtl : Option Int)
  | ogetTtl (key : JsValue)
  | oflush

/-- Run one operation at time `now`, keeping the resulting state. -/
def runOp (opts : Options) (now : Int) (s : State) : Op → State
  | .oset k v t => (set opts now s k v t).state
  | .oget k e => (get opts now s k e).state
  | .omget a => (mget opts now s a).state
  | .odel a => (del opts s a).state
  | .ottl k t => (ttl opts now s k t).state
  | .ogetTtl k => (getTtl opts now s k).state
  | .oflush => (flushAll s).1

/-- Run a sequence of timestamped operations. -/
def runOps (opts : Options) : State → List (Int × Op) → State
  | s, [] => s
  | s, (now, op) :: rest => runOps opts (runOp opts now s op) rest

/-! ### Derived notions used by the specification claims -/

/-- The data container has no duplicate property keys (true of every
reachable state, since a JS object cannot hold a key twice). -/
def nodupKeys (d : List (String × Entry)) : Prop :=
  (d.map Prod.fst).Nodup

/-- Sum of the stored keys' lengths — the value `stats.ksize` is meant to
track. -/
def ksizeSum : List (String × Entry) → Int
  | [] => 0
  | (k, _) :: rest => (k.length : Int) + ksizeSum rest

/-- The value-size contribution one stored entry makes to `stats.vsize`:
the estimated size of its unwrapped value.  (`_getValLength` is always
defined on an unwrapped value, see `getValLength_unwrap`.) -/
def entryVal (opts : Options) (e : Entry) : Int :=
  (_getValLength opts (_unwrap (.entry e))).getD 0

/-- Sum of the stored entries' estimated value sizes — the value
`stats.vsize` is meant to track. -/
def vsizeSum (opts : Options) : List (String × Entry) → Int
  | [] => 0
  | (_, e) :: rest => entryVal opts e + vsizeSum opts rest

/-- The statistics/contents invariant of claim C1: `keys` counts the stored
entries (stale-but-unswept included), `ksize` and `vsize` are the integer
sums of the stored key lengths and estimated value sizes. -/
def StatsInv (opts : Options) (s : State) : Prop :=
  s.stats.keys = (s.data.own.length : Int)
    ∧ s.stats.ksize = some (ksizeSum s.data.own)
    ∧ s.stats.vsize = some (vsizeSum opts s.data.own)

/-- The full inductive invariant: well-formed container (no duplicate own
keys, prototype never replaced) plus statistics consistency. -/
def GoodState (opts : Options) (s : State) : Prop :=
  nodupKeys s.data.own ∧ s.data.proto = .objectProto ∧ StatsInv opts s

/-- The key's string form, as claimed for `estimateKeySize`. -/
def keyIsString : JsValue → Bool
  | .vstr _ => true
  | _ => false

/-- The value is the undefined sentinel. -/
def isUndefinedB : JsValue → Bool
  | .vundefined => true
  | _ => false

/-- A string key that is not the name of an `Object.prototype` member:
only for these does a property read on the data container behave as pure
map lookup (and a write as pure map update). -/
def plainStringKey : JsValue → Bool
  | .vstr str => !(protoMemberNames.contains str)
  | _ => false

/-- Conditions under which one operation keeps the C1 bookkeeping intact:
every key it touches is a string that is not an `Object.prototype`
member name (toString, __proto__, ...), and (for `set`) the stored value
has a defined JSON form whenever `forceString` would serialize it. -/
def opGood (opts : Options) : Op → Bool
  | .oset k v _ => plainStringKey k && !(opts.forceString && isUndefinedB v)
  | .oget k _ => plainStringKey k
  | .omget a =>
    match a with
    | .varr l => l.all plainStringKey
    | _ => true
  | .odel a => (toKeyList a).all plainStringKey
  | .ottl k _ => plainStringKey k
  | .ogetTtl k => plainStringKey k
  | .oflush => true

end NodeCache

namespace NodeCache

/-! ### Association-list lemmas -/

theorem dlookup_ddel_self {β : Type} (d : List (String × β)) (k : String) :
    dlookup (ddel d k) k = none := by
  induction d with
  | nil => simp [ddel, dlookup]
  | cons kv rest ih =>
    obtain ⟨k₀, e₀⟩ := kv
    by_cases h0 : k₀ = k <;> simp [ddel, dlookup, h0] <;> simpa [ddel] using ih

theorem dlookup_eq_none_of_not_mem {β : Type} (d : List (String × β)) (k : String)
    (h : k ∉ d.map Prod.fst) : dlookup d k = none := by
  induction d with
  | nil => simp [dlookup]
  | cons kv rest ih =>
    obtain ⟨k₀, e₀⟩ := kv
    simp only [List.map_cons, List.mem_cons, not_or] at h
    simp [dlookup, Ne.symm h.1, ih h.2]

theorem not_mem_of_dlookup_eq_none {β : Type} (d : List (String × β)) (k : String)
    (h : dlookup d k = none) : k ∉ d.map Prod.fst := by
  induction d with
  | nil => simp
  | cons kv rest ih =>
    obtain ⟨k₀, e₀⟩ := kv
    by_cases h0 : k₀ = k
    · simp [dlookup, h0] at h
    · simp only [dlookup, h0, if_false] at h
      simp [Ne.symm h0, ih h]

theorem ddel_of_dlookup_none {β : Type} (d : List (String × β)) (k : String)
    (h : dlookup d k = none) : ddel d k = d := by
  induction d with
  | nil => simp [ddel]
  | cons kv rest ih =>
    obtain ⟨k₀, e₀⟩ := kv
    by_cases h0 : k₀ = k
    · simp [dlookup, h0] at h
    · simp only [dlookup, h0, if_false] at h
      simp [ddel, h0]
      simpa [ddel] using ih h

theorem ddel_cons_self {β : Type} (k : String) (e : β) (rest : List (String × β)) :
    ddel ((k, e) :: rest) k = ddel rest k := by
  simp [ddel]

theorem ddel_cons_ne {β : Type} (k₀ k : String) (e : β) (rest : List (String × β))
    (h : k₀ ≠ k) : ddel ((k₀, e) :: rest) k = (k₀, e) :: ddel rest k := by
  simp [ddel, h]

theorem mem_map_fst_dset {β : Type} (d : List (String × β)) (k : String) (e : β)
    (x : String) : x ∈ (dset d k e).map Prod.fst ↔ x = k ∨ x ∈ d.map Prod.fst := by
  induction d with
  | nil => simp [dset]
  | cons kv rest ih =>
    obtain ⟨k₀, e₀⟩ := kv
    by_cases h0 : k₀ = k
    · subst h0
      simp [dset]
    · simp [dset, h0, ih]
      tauto

theorem mem_map_fst_ddel {β : Type} (d : List (String × β)) (k : String)
    (x : String) (h : x ∈ (ddel d k).map Prod.fst) : x ∈ d.map Prod.fst := by
  induction d with
  | nil => simp [ddel] at h
  | cons kv rest ih =>
    obtain ⟨k₀, e₀⟩ := kv
    by_cases h0 : k₀ = k
    · subst h0
      rw [ddel_cons_self] at h
      exact List.mem_cons_of_mem _ (ih h)
    · rw [ddel_cons_ne _ _ _ _ h0] at h
      simp only [List.map_cons, List.mem_cons] at h ⊢
      tauto

theorem nodupKeys_dset (d : List (String × Entry)) (k : String) (e : Entry)
    (h : nodupKeys d) : nodupKeys (dset d k e) := by
  induction d with
  | nil => simp [nodupKeys, dset]
  | cons kv rest ih =>
    obtain ⟨k₀, e₀⟩ := kv
    simp only [nodupKeys, List.map_cons, List.nodup_cons] at h
    by_cases h0 : k₀ = k
    · subst h0
      simpa [nodupKeys, dset] using h
    · have := ih h.2
      simp only [nodupKeys, dset, h0, if_false, List.map_cons, List.nodup_cons]
      refine ⟨fun hm => ?_, this⟩
      rcases (mem_map_fst_dset rest k e k₀).mp hm with h1 | h1
      · exact h0 h1
      · exact h.1 h1

theorem nodupKeys_ddel (d : List (String × Entry)) (k : String)
    (h : nodupKeys d) : nodupKeys (ddel d k) := by
  induction d with
  | nil => simp [nodupKeys, ddel]
  | cons kv rest ih =>
    obtain ⟨k₀, e₀⟩ := kv
    simp only [nodupKeys, List.map_cons, List.nodup_cons] at h
    by_cases h0 : k₀ = k
    · subst h0
      rw [ddel_cons_self]
      exact ih h.2
    · rw [ddel_cons_ne _ _ _ _ h0]
      simp only [nodupKeys, List.map_cons, List.nodup_cons]
      exact ⟨fun hm => h.1 (mem_map_fst_ddel rest k k₀ hm), ih h.2⟩

theorem length_dset_absent {β : Type} (d : List (String × β)) (k : String) (e : β)
    (h : dlookup d k = none) : (dset d k e).length = d.length + 1 := by
  induction d with
  | nil => simp [dset]
  | cons kv rest ih =>
    obtain ⟨k₀, e₀⟩ := kv
    by_cases h0 : k₀ = k
    · simp [dlookup, h0] at h
    · simp only [dlookup, h0, if_false] at h
      simp [dset, h0, ih h]

theorem length_dset_present {β : Type} (d : List (String × β)) (k : String)
    (e e₀ : β) (h : dlookup d k = some e₀) : (dset d k e).length = d.length := by
  induction d with
  | nil => simp [dlookup] at h
  | cons kv rest ih =>
    obtain ⟨k₁, e₁⟩ := kv
    by_cases h0 : k₁ = k
    · simp [dset, h0]
    · simp only [dlookup, h0, if_false] at h
      simp [dset, h0, ih h]

theorem length_ddel_present {β : Type} (d : List (String × β)) (k : String)
    (e₀ : β) (hnd : (d.map Prod.fst).Nodup) (h : dlookup d k = some e₀) :
    (ddel d k).length + 1 = d.length := by
  induction d with
  | nil => simp [dlookup] at h
  | cons kv rest ih =>
    obtain ⟨k₁, e₁⟩ := kv
    simp only [List.map_cons, List.nodup_cons] at hnd
    by_cases h0 : k₁ = k
    · subst h0
      have hnone : dlookup rest k₁ = none :=
        dlookup_eq_none_of_not_mem rest k₁ hnd.1
      rw [ddel_cons_self, ddel_of_dlookup_none rest k₁ hnone]
      simp
    · simp only [dlookup, h0, if_false] at h
      rw [ddel_cons_ne _ _ _ _ h0]
      have := ih hnd.2 h
      simp only [List.length_cons]
      omega

theorem ksizeSum_dset_absent (d : List (String × Entry)) (k : String) (e : Entry)
    (h : dlookup d k = none) : ksizeSum (dset d k e) = ksizeSum d + (k.length : Int) := by
  induction d with
  | nil => simp [dset, ksizeSum]
  | cons kv rest ih =>
    obtain ⟨k₀, e₀⟩ := kv
    by_cases h0 : k₀ = k
    · simp [dlookup, h0] at h
    · simp only [dlookup, h0, if_false] at h
      simp [dset, h0, ksizeSum, ih h]
      ring

theorem ksizeSum_dset_present (d : List (String × Entry)) (k : String)
    (e e₀ : Entry) (h : dlookup d k = some e₀) : ksizeSum (dset d k e) = ksizeSum d := by
  induction d with
  | nil => simp [dlookup] at h
  | cons kv rest ih =>
    obtain ⟨k₁, e₁⟩ := kv
    by_cases h0 : k₁ = k
    · subst h0
      simp [dset, ksizeSum]
    · simp only [dlookup, h0, if_false] at h
      simp [dset, h0, ksizeSum, ih h]

theorem ksizeSum_ddel_present (d : List (String × Entry)) (k : String)
    (e₀ : Entry) (hnd : nodupKeys d) (h : dlookup d k = some e₀) :
    ksizeSum (ddel d k) = ksizeSum d - (k.length : Int) := by
  induction d with
  | nil => simp [dlookup] at h
  | cons kv rest ih =>
    obtain ⟨k₁, e₁⟩ := kv
    simp only [nodupKeys, List.map_cons, List.nodup_cons] at hnd
    by_cases h0 : k₁ = k
    · subst h0
      have hnone : dlookup rest k₁ = none :=
        dlookup_eq_none_of_not_mem rest k₁ hnd.1
      rw [ddel_cons_self, ddel_of_dlookup_none rest k₁ hnone]
      simp [ksizeSum]
    · simp only [dlookup, h0, if_false] at h
      rw [ddel_cons_ne _ _ _ _ h0]
      simp only [ksizeSum]
      rw [ih hnd.2 h]
      ring

theorem vsizeSum_dset_absent (opts : Options) (d : List (String × Entry)) (k : String)
    (e : Entry) (h : dlookup d k = none) :
    vsizeSum opts (dset d k e) = vsizeSum opts d + entryVal opts e := by
  induction d with
  | nil => simp [dset, vsizeSum]
  | cons kv rest ih =>
    obtain ⟨k₀, e₀⟩ := kv
    by_cases h0 : k₀ = k
    · simp [dlookup, h0] at h
    · simp only [dlookup, h0, if_false] at h
      simp [dset, h0, vsizeSum, ih h]
      ring

theorem vsizeSum_dset_present (opts : Options) (d : List (String × Entry)) (k : String)
    (e e₀ : Entry) (hnd : nodupKeys d) (h : dlookup d k = some e₀) :
    vsizeSum opts (dset d k e) = vsizeSum opts d - entryVal opts e₀ + entryVal opts e := by
  induction d with
  | nil => simp [dlookup] at h
  | cons kv rest ih =>
    obtain ⟨k₁, e₁⟩ := kv
    simp only [nodupKeys, List.map_cons, List.nodup_cons] at hnd
    by_cases h0 : k₁ = k
    · subst h0
      simp only [dlookup, if_true, Option.some.injEq] at h
      subst h
      simp [dset, vsizeSum]
      ring
    · simp only [dlookup, h0, if_false] at h
      simp [dset, h0, vsizeSum, ih hnd.2 h]
      ring

theorem vsizeSum_ddel_present (opts : Options) (d : List (String × Entry)) (k : String)
    (e₀ : Entry) (hnd : nodupKeys d) (h : dlookup d k = some e₀) :
    vsizeSum opts (ddel d k) = vsizeSum opts d - entryVal opts e₀ := by
  induction d with
  | nil => simp [dlookup] at h
  | cons kv rest ih =>
    obtain ⟨k₁, e₁⟩ := kv
    simp only [nodupKeys, List.map_cons, List.nodup_cons] at hnd
    by_cases h0 : k₁ = k
    · subst h0
      simp only [dlookup, if_true, Option.some.injEq] at h
      subst h
      have hnone : dlookup rest k₁ = none :=
        dlookup_eq_none_of_not_mem rest k₁ hnd.1
      rw [ddel_cons_self, ddel_of_dlookup_none rest k₁ hnone]
      simp [vsizeSum]
    · simp only [dlookup, h0, if_false] at h
      rw [ddel_cons_ne _ _ _ _ h0]
      simp only [vsizeSum]
      rw [ih hnd.2 h]
      ring

/-! ### Unwrap and value-size lemmas -/

theorem unwrap_ne_undefined (data : PropVal) : _unwrap data ≠ JsValue.vundefined := by
  unfold _unwrap
  cases h : propV data with
  | none => simp
  | some v => cases v <;> simp [looseNullish]

theorem jsonStringify_isSome (v : JsValue) (h : v ≠ .vundefined) :
    (jsonStringify v).isSome := by
  cases v <;> first
    | exact absurd rfl h
    | simp [jsonStringify]

theorem getValLength_isSome (opts : Options) (v : JsValue) (h : v ≠ .vundefined) :
    (_getValLength opts v).isSome := by
  cases v with
  | vundefined => exact absurd rfl h
  | vstr s => simp [_getValLength]
  | vnum n =>
    unfold _getValLength
    split
    · simp
    · split <;> simp [jsonStringify]
  | vbool b =>
    unfold _getValLength
    split
    · simp
    · split <;> simp [jsonStringify]
  | vnull =>
    unfold _getValLength
    split
    · simp
    · split <;> simp [jsonStringify]
  | varr l =>
    unfold _getValLength
    split
    · simp
    · split <;> simp [jsonStringify]
  | vobj fs =>
    unfold _getValLength
    split
    · simp
    · split <;> simp [jsonStringify]

theorem getValLength_unwrap (opts : Options) (data : PropVal) :
    _getValLength opts (_unwrap data)
      = some ((_getValLength opts (_unwrap data)).getD 0) := by
  obtain ⟨n, hn⟩ := Option.isSome_iff_exists.mp
    (getValLength_isSome opts (_unwrap data) (unwrap_ne_undefined data))
  simp [hn]

theorem getValLength_unwrap_entry (opts : Options) (e : Entry) :
    _getValLength opts (_unwrap (.entry e)) = some (entryVal opts e) :=
  getValLength_unwrap opts (.entry e)

theorem wrap_unwrap_vallen (opts : Options) (now : Int) (v : JsValue) (t : Option Int)
    (h : ¬(opts.forceString = true ∧ v = .vundefined)) :
    _getValLength opts (_unwrap (.entry (_wrap opts now v t)))
      = _getValLength opts v := by
  cases v with
  | vundefined =>
    have hf : opts.forceString = false := by
      cases hf : opts.forceString
      · rfl
      · exact absurd ⟨hf, rfl⟩ h
    simp [_wrap, _unwrap, propV, looseNullish, _getValLength, hf]
  | vnull => simp [_wrap, _unwrap, propV, looseNullish]
  | vstr s => simp [_wrap, _unwrap, propV, looseNullish]
  | vnum n => simp [_wrap, _unwrap, propV, looseNullish]
  | vbool b => simp [_wrap, _unwrap, propV, looseNullish]
  | varr l => simp [_wrap, _unwrap, propV, looseNullish]
  | vobj fs => simp [_wrap, _unwrap, propV, looseNullish]

theorem entryVal_wrap_of_vallen (opts : Options) (now : Int) (v : JsValue)
    (t : Option Int) (add : Int) (h : _getValLength opts v = some add) :
    entryVal opts (_wrap opts now v t) = add := by
  have hnot : ¬(opts.forceString = true ∧ v = .vundefined) := by
    rintro ⟨hf, rfl⟩
    simp [_getValLength, hf, jsonStringify] at h
  have h2 := getValLength_unwrap_entry opts (_wrap opts now v t)
  rw [wrap_unwrap_vallen opts now v t hnot, h] at h2
  exact (Option.some.injEq _ _ ▸ h2).symm

theorem entryVal_wrap_v (opts : Options) (now : Int) (t : Option Int) (e : Entry) :
    entryVal opts (_wrap opts now e.v t) = entryVal opts e := by
  rfl

/-! ### Single-key del computations -/

theorem toKeyList_single (k : JsValue) (h : _isInvalidKey k = none) :
    toKeyList k = [k] := by
  cases k <;> first
    | rfl
    | simp [_isInvalidKey, typeofStr] at h

theorem jsGet_own (d : JsObj) (k : String) (e : Entry)
    (h : dlookup d.own k = some e) : jsGet d k = some (.entry e) := by
  simp [jsGet, h]

theorem jsGet_plain_none (d : JsObj) (k : String)
    (h : dlookup d.own k = none) (hp : d.proto = .objectProto)
    (hk : protoMemberNames.contains k = false) : jsGet d k = none := by
  simp only [jsGet, h, hp]
  rw [hk]
  simp

theorem jsSet_plain (d : JsObj) (k : String) (e : Entry)
    (hk : protoMemberNames.contains k = false) :
    jsSet d k e = ⟨dset d.own k e, d.proto⟩ := by
  have : k ≠ "__proto__" := by
    intro h
    subst h
    simp [protoMemberNames] at hk
  simp [jsSet, this]

theorem staleAtB_entry_false (now : Int) (e : Entry)
    (h : ¬(e.t ≠ 0 ∧ e.t < now)) : staleAtB now (.entry e) = false := by
  simp only [staleAtB, propT, Bool.and_eq_false_imp, decide_eq_true_eq,
    decide_eq_false_iff_not]
  omega

theorem staleAtB_entry_true (now : Int) (e : Entry)
    (h0 : e.t ≠ 0) (h1 : e.t < now) : staleAtB now (.entry e) = true := by
  simp [staleAtB, propT, h0, h1]

theorem del_single_present (opts : Options) (s : State) (k : JsValue) (e : Entry)
    (hv : _isInvalidKey k = none) (hl : dlookup s.data.own (propKey k) = some e) :
    del opts s k = ⟨⟨jsDel s.data (propKey k),
      { s.stats with
        vsize := jsub s.stats.vsize (some (entryVal opts e)),
        ksize := jsub s.stats.ksize (_getKeyLength k),
        keys := s.stats.keys - 1 }⟩,
      [Event.edel k e.v], .ok 1⟩ := by
  simp [del, toKeyList_single k hv, delLoop, hv, jsGet_own s.data _ e hl,
    getValLength_unwrap_entry, propV]

theorem check_fresh (opts : Options) (now : Int) (s : State) (key : JsValue)
    (data : PropVal) (h : staleAtB now data = false) :
    _check opts now s key data = ⟨s, [], true⟩ := by
  unfold _check
  rw [h]
  simp

theorem check_fresh_entry (opts : Options) (now : Int) (s : State) (key : JsValue)
    (e : Entry) (h : ¬(e.t ≠ 0 ∧ e.t < now)) :
    _check opts now s key (.entry e) = ⟨s, [], true⟩ :=
  check_fresh opts now s key (.entry e) (staleAtB_entry_false now e h)

theorem check_stale (opts : Options) (now : Int) (s : State) (key : JsValue)
    (e : Entry) (hv : _isInvalidKey key = none)
    (hl : dlookup s.data.own (propKey key) = some e)
    (h0 : e.t ≠ 0) (h1 : e.t < now) :
    _check opts now s key (.entry e) = ⟨⟨jsDel s.data (propKey key),
      { s.stats with
        vsize := jsub s.stats.vsize (some (entryVal opts e)),
        ksize := jsub s.stats.ksize (_getKeyLength key),
        keys := s.stats.keys - 1 }⟩,
      [Event.edel key e.v, Event.eexpired key (_unwrap (.entry e))], false⟩ := by
  unfold _check
  rw [staleAtB_entry_true now e h0 h1]
  simp [del_single_present opts s key e hv hl]

end NodeCache

namespace NodeCache

/-! ### Validity of string and number keys -/

theorem isInvalidKey_vstr (s : String) : _isInvalidKey (.vstr s) = none := rfl

theorem isInvalidKey_vnum (n : Int) : _isInvalidKey (.vnum n) = none := rfl

theorem valid_of_string (key : JsValue) (hk : keyIsString key = true) :
    _isInvalidKey key = none := by
  cases key <;> simp [keyIsString] at hk
  exact isInvalidKey_vstr _

theorem propKey_vstr (s : String) : propKey (.vstr s) = s := rfl

/-! ### Invariant-preservation helpers -/

theorem good_of_eq_core (opts : Options) (s s' : State)
    (hg : GoodState opts s) (hd : s'.data = s.data)
    (hk : s'.stats.keys = s.stats.keys) (hks : s'.stats.ksize = s.stats.ksize)
    (hvs : s'.stats.vsize = s.stats.vsize) : GoodState opts s' := by
  obtain ⟨h1, hp, h2, h3, h4⟩ := hg
  exact ⟨by rw [hd]; exact h1, by rw [hd]; exact hp,
    by rw [StatsInv, hd, hk, hks, hvs]; exact ⟨h2, h3, h4⟩⟩

theorem conv_vallen_isSome (opts : Options) (value : JsValue)
    (hnc : opts.forceString = true → value ≠ .vundefined) :
    (_getValLength opts (forceStringConv opts value)).isSome := by
  by_cases hf : opts.forceString = true
  · by_cases hs : isStringB value = true
    · cases value <;> simp [isStringB] at hs
      simp [forceStringConv, _getValLength, isStringB]
    · obtain ⟨str, hstr⟩ := Option.isSome_iff_exists.mp
        (jsonStringify_isSome value (hnc hf))
      simp [forceStringConv, hf, hs, hstr, _getValLength]
  · have hf' : opts.forceString = false := by
      cases h : opts.forceString
      · rfl
      · exact absurd h hf
    have : forceStringConv opts value = value := by
      simp [forceStringConv, hf']
    rw [this]
    cases value <;> simp [_getValLength, hf']

theorem good_set (opts : Options) (now : Int) (s : State) (k : String)
    (value : JsValue) (t : Option Int) (hg : GoodState opts s)
    (hpk : protoMemberNames.contains k = false)
    (hnc : opts.forceString = true → value ≠ .vundefined) :
    GoodState opts (set opts now s (.vstr k) value t).state := by
  obtain ⟨hnd, hproto, hkeys, hksize, hvsize⟩ := hg
  obtain ⟨add, hadd⟩ := Option.isSome_iff_exists.mp (conv_vallen_isSome opts value hnc)
  have hwrap : entryVal opts (_wrap opts now (forceStringConv opts value) t) = add :=
    entryVal_wrap_of_vallen opts now _ t add hadd
  have hset := jsSet_plain s.data k (_wrap opts now (forceStringConv opts value) t) hpk
  unfold set
  simp only [isInvalidKey_vstr, propKey_vstr]
  cases hd : dlookup s.data.own k with
  | some old =>
    simp only [jsGet_own s.data k old hd, truthyP, if_true,
      getValLength_unwrap_entry, hadd, hset]
    refine ⟨?_, ?_, ?_, ?_, ?_⟩
    · exact nodupKeys_dset s.data.own k _ hnd
    · exact hproto
    · simpa [length_dset_present s.data.own k _ old hd] using hkeys
    · simpa [ksizeSum_dset_present s.data.own k _ old hd] using hksize
    · simp only [hvsize, jsub, jadd]
      rw [vsizeSum_dset_present opts s.data.own k _ old hnd hd, hwrap]
  | none =>
    simp only [jsGet_plain_none s.data k hd hproto hpk, hadd, hset]
    refine ⟨?_, ?_, ?_, ?_, ?_⟩
    · exact nodupKeys_dset s.data.own k _ hnd
    · exact hproto
    · simp [length_dset_absent s.data.own k _ hd, hkeys]
    · simp only [hksize, _getKeyLength, jadd]
      rw [ksizeSum_dset_absent s.data.own k _ hd]
    · simp only [hvsize, jadd]
      rw [vsizeSum_dset_absent opts s.data.own k _ hd, hwrap]

/-- A plain string key is a string literal that is not an `Object.prototype`
member name. -/
theorem plain_elim (k : JsValue) (hk : plainStringKey k = true) :
    ∃ kk, k = JsValue.vstr kk ∧ protoMemberNames.contains kk = false := by
  cases k
  case vstr str =>
    refine ⟨str, rfl, ?_⟩
    simpa [plainStringKey] using hk
  all_goals simp [plainStringKey] at hk

theorem valid_of_plain (k : JsValue) (hk : plainStringKey k = true) :
    _isInvalidKey k = none := by
  obtain ⟨kk, rfl, _⟩ := plain_elim k hk
  exact isInvalidKey_vstr kk

theorem plain_toKeyList (key : JsValue) (hk : plainStringKey key = true) :
    ∀ k ∈ toKeyList key, plainStringKey k = true := by
  obtain ⟨kk, rfl, hkk⟩ := plain_elim key hk
  intro k hk'
  have heq : toKeyList (JsValue.vstr kk) = [JsValue.vstr kk] := rfl
  rw [heq, List.mem_singleton] at hk'
  subst hk'
  exact hk

theorem good_delLoop (opts : Options) (ks : List JsValue) :
    ∀ (s : State) (evs : List Event) (cnt : Int), GoodState opts s →
    (∀ k ∈ ks, plainStringKey k = true) →
    GoodState opts (delLoop opts s evs cnt ks).state := by
  induction ks with
  | nil =>
    intro s evs cnt hg _
    simpa [delLoop] using hg
  | cons k ks ih =>
    intro s evs cnt hg hks
    have hk := hks k (List.mem_cons_self _ _)
    obtain ⟨kk, rfl, hkk⟩ := plain_elim k hk
    have hv := isInvalidKey_vstr kk
    unfold delLoop
    simp only [hv, propKey_vstr]
    cases hd : dlookup s.data.own kk with
    | some e =>
      simp only [jsGet_own s.data kk e hd, getValLength_unwrap_entry]
      refine ih _ _ _ ?_ (fun k' hk' => hks k' (List.mem_cons_of_mem _ hk'))
      obtain ⟨hnd, hproto, hkeys, hksize, hvsize⟩ := hg
      refine ⟨nodupKeys_ddel s.data.own kk hnd, hproto, ?_, ?_, ?_⟩
      · have := length_ddel_present s.data.own kk e hnd hd
        simp only [jsDel, hkeys]
        omega
      · simp only [jsDel, hksize, _getKeyLength, jsub]
        rw [ksizeSum_ddel_present s.data.own kk e hnd hd]
      · simp only [jsDel, hvsize, jsub]
        rw [vsizeSum_ddel_present opts s.data.own kk e hnd hd]
    | none =>
      simp only [jsGet_plain_none s.data kk hd hg.2.1 hkk]
      refine ih _ _ _ ?_ (fun k' hk' => hks k' (List.mem_cons_of_mem _ hk'))
      exact good_of_eq_core opts s _ hg rfl rfl rfl rfl

theorem good_del (opts : Options) (s : State) (keysArg : JsValue)
    (hg : GoodState opts s)
    (hks : ∀ k ∈ toKeyList keysArg, plainStringKey k = true) :
    GoodState opts (del opts s keysArg).state :=
  good_delLoop opts (toKeyList keysArg) s [] 0 hg hks

end NodeCache

namespace NodeCache

theorem keyIsString_toKeyList (key : JsValue) (hk : keyIsString key = true) :
    ∀ k ∈ toKeyList key, keyIsString k = true := by
  rw [toKeyList_single key (valid_of_string key hk)]
  intro k hk'
  rw [List.mem_singleton] at hk'
  subst hk'
  exact hk

theorem good_with_stats (opts : Options) (s : State) (st : Stats)
    (hg : GoodState opts s) (hk : st.keys = s.stats.keys)
    (hks : st.ksize = s.stats.ksize) (hvs : st.vsize = s.stats.vsize) :
    GoodState opts { s with stats := st } :=
  good_of_eq_core opts s _ hg rfl hk hks hvs

theorem good_check (opts : Options) (now : Int) (s : State) (key : JsValue)
    (data : PropVal) (hg : GoodState opts s) (hk : plainStringKey key = true) :
    GoodState opts (_check opts now s key data).state := by
  unfold _check
  split
  · exact good_del opts s key hg (plain_toKeyList key hk)
  · exact hg

theorem good_get (opts : Options) (now : Int) (s : State) (key : JsValue)
    (err : Bool) (hg : GoodState opts s) (hk : plainStringKey key = true) :
    GoodState opts (get opts now s key err).state := by
  have hv := valid_of_plain key hk
  unfold get
  simp only [hv]
  cases hd : jsGet s.data (propKey key) with
  | some data =>
    simp only [hd]
    have hc := good_check opts now s key data hg hk
    split
    · exact good_with_stats opts _ _ hc rfl rfl rfl
    · unfold getMiss
      split <;> exact good_with_stats opts _ _ hc rfl rfl rfl
  | none =>
    simp only [hd]
    unfold getMiss
    split <;> exact good_with_stats opts _ _ hg rfl rfl rfl

theorem good_mgetLoop (opts : Options) (now : Int) (ks : List JsValue) :
    ∀ (s : State) (evs : List Event) (acc : List (String × JsValue)),
    GoodState opts s → (∀ k ∈ ks, plainStringKey k = true) →
    GoodState opts (mgetLoop opts now s evs acc ks).state := by
  induction ks with
  | nil =>
    intro s evs acc hg _
    simpa [mgetLoop] using hg
  | cons k ks ih =>
    intro s evs acc hg hks
    have hk := hks k (List.mem_cons_self _ _)
    have hv := valid_of_plain k hk
    have hrest := fun k' hk' => hks k' (List.mem_cons_of_mem _ hk')
    unfold mgetLoop
    simp only [hv]
    cases hd : jsGet s.data (propKey k) with
    | some data =>
      simp only [hd]
      have hc := good_check opts now s k data hg hk
      split
      · exact ih _ _ _ (good_with_stats opts _ _ hc rfl rfl rfl) hrest
      · exact ih _ _ _ (good_with_stats opts _ _ hc rfl rfl rfl) hrest
    | none =>
      simp only [hd]
      exact ih _ _ _ (good_with_stats opts _ _ hg rfl rfl rfl) hrest

theorem good_mget (opts : Options) (now : Int) (s : State) (keysArg : JsValue)
    (hg : GoodState opts s)
    (hks : ∀ l, keysArg = .varr l → ∀ k ∈ l, plainStringKey k = true) :
    GoodState opts (mget opts now s keysArg).state := by
  cases keysArg with
  | varr l => exact good_mgetLoop opts now l s [] [] hg (hks l rfl)
  | vstr s' => exact hg
  | vnum n => exact hg
  | vbool b => exact hg
  | vnull => exact hg
  | vundefined => exact hg
  | vobj fs => exact hg

theorem good_overwrite_same_val (opts : Options) (s : State) (pk : String)
    (entry e' : Entry) (hg : GoodState opts s)
    (hd : dlookup s.data.own pk = some entry)
    (hpk : protoMemberNames.contains pk = false)
    (hval : entryVal opts e' = entryVal opts entry) :
    GoodState opts ⟨jsSet s.data pk e', s.stats⟩ := by
  rw [jsSet_plain s.data pk e' hpk]
  refine ⟨nodupKeys_dset s.data.own pk e' hg.1, hg.2.1, ?_, ?_, ?_⟩
  · simpa [length_dset_present s.data.own pk e' entry hd] using hg.2.2.1
  · simpa [ksizeSum_dset_present s.data.own pk e' entry hd] using hg.2.2.2.1
  · have hsum := vsizeSum_dset_present opts s.data.own pk e' entry hg.1 hd
    rw [hval] at hsum
    have h2 : vsizeSum opts (dset s.data.own pk e') = vsizeSum opts s.data.own := by
      rw [hsum]; ring
    simpa [h2] using hg.2.2.2.2

theorem good_ttl (opts : Options) (now : Int) (s : State) (key : JsValue)
    (newTtl : Option Int) (hg : GoodState opts s) (hk : plainStringKey key = true) :
    GoodState opts (ttl opts now s key newTtl).state := by
  have hv := valid_of_plain key hk
  obtain ⟨kk, hkey, hkk⟩ := plain_elim key hk
  have hkp : protoMemberNames.contains (propKey key) = false := by
    rw [hkey, propKey_vstr]; exact hkk
  by_cases hfal : falsy key = true
  · simp only [ttl, if_pos hfal]
    exact hg
  · simp only [ttl, if_neg hfal, hv]
    cases hd : dlookup s.data.own (propKey key) with
    | none =>
      simp only [jsGet_plain_none s.data (propKey key) hd hg.2.1 hkp]
      exact hg
    | some entry =>
      simp only [jsGet_own s.data (propKey key) entry hd]
      by_cases hst : entry.t ≠ 0 ∧ entry.t < now
      · rw [check_stale opts now s key entry hv hd hst.1 hst.2]
        have hdel := good_del opts s key hg (plain_toKeyList key hk)
        rw [del_single_present opts s key entry hv hd] at hdel
        split
        · rename_i hfr
          simp at hfr
        · exact hdel
      · rw [check_fresh_entry opts now s key entry hst]
        split
        · split
          · exact good_overwrite_same_val opts s (propKey key) entry _ hg hd hkp
              (entryVal_wrap_v opts now _ entry)
          · exact good_del opts s key hg (plain_toKeyList key hk)
        · exact hg

theorem good_getTtl (opts : Options) (now : Int) (s : State) (key : JsValue)
    (hg : GoodState opts s) (hk : plainStringKey key = true) :
    GoodState opts (getTtl opts now s key).state := by
  have hv := valid_of_plain key hk
  by_cases hfal : falsy key = true
  · simp only [getTtl, if_pos hfal]
    exact hg
  · simp only [getTtl, if_neg hfal, hv]
    cases hd : jsGet s.data (propKey key) with
    | none =>
      simp only [hd]
      exact hg
    | some data =>
      simp only [hd]
      have hc := good_check opts now s key data hg hk
      split
      · exact hc
      · exact hc

theorem good_flushAll (opts : Options) (s : State) :
    GoodState opts (flushAll s).1 := by
  refine ⟨?_, ?_, ?_, ?_, ?_⟩ <;>
    simp [flushAll, nodupKeys, zeroStats, ksizeSum, vsizeSum]

theorem good_initial (opts : Options) : GoodState opts initialState := by
  refine ⟨?_, ?_, ?_, ?_, ?_⟩ <;>
    simp [initialState, nodupKeys, zeroStats, ksizeSum, vsizeSum]

theorem good_runOp (opts : Options) (now : Int) (s : State) (op : Op)
    (hg : GoodState opts s) (hop : opGood opts op = true) :
    GoodState opts (runOp opts now s op) := by
  cases op with
  | oset k v t =>
    simp only [opGood, Bool.and_eq_true, Bool.not_eq_true'] at hop
    obtain ⟨kk, rfl, hkk⟩ := plain_elim k hop.1
    refine good_set opts now s kk v t hg hkk ?_
    intro hf hvund
    subst hvund
    have := hop.2
    rw [hf] at this
    simp [isUndefinedB] at this
  | oget k e => exact good_get opts now s k e hg hop
  | omget a =>
    refine good_mget opts now s a hg ?_
    intro l hl k hkl
    subst hl
    simp only [opGood, List.all_eq_true] at hop
    exact hop k hkl
  | odel a =>
    refine good_del opts s a hg ?_
    intro k hkl
    simp only [opGood, List.all_eq_true] at hop
    exact hop k hkl
  | ottl k t => exact good_ttl opts now s k t hg hop
  | ogetTtl k => exact good_getTtl opts now s k hg hop
  | oflush => exact good_flushAll opts s

theorem good_runOps (opts : Options) (ops : List (Int × Op)) :
    ∀ s : State, GoodState opts s → (∀ p ∈ ops, opGood opts p.2 = true) →
    GoodState opts (runOps opts s ops) := by
  induction ops with
  | nil =>
    intro s hg _
    simpa [runOps] using hg
  | cons p ops ih =>
    intro s hg hops
    obtain ⟨now, op⟩ := p
    unfold runOps
    exact ih _ (good_runOp opts now s op hg (hops _ (List.mem_cons_self _ _)))
      (fun q hq => hops q (List.mem_cons_of_mem _ hq))

end NodeCache

namespace NodeCache

/-! ### Claim theorems -/

/-- C1 (amended): after any sequence of public operations (set, get, mget,
del, ttl, getTtl, flushAll) on a fresh cache in which every key is a
string other than an `Object.prototype` member name (toString,
constructor, __proto__, ...) and no set stores an undefined value while
forceString is active, stats.keys equals the number of currently-stored
entries
(stale-but-unswept entries included), stats.ksize equals the sum of the
stored keys' lengths and stats.vsize equals the sum of the stored
entries' estimated value sizes. -/
theorem c1_stats_invariant (opts : Options) (ops : List (Int × Op))
    (hops : ∀ p ∈ ops, opGood opts p.2 = true) :
    StatsInv opts (runOps opts initialState ops) :=
  (good_runOps opts ops initialState (good_initial opts) hops).2.2

/-- C1 counterexample: as stated the claim is false — already a single
set with the valid integer key 1 drives stats.ksize to NaN (`none`),
while the sum of the stored keys' estimated sizes is the integer 1, so
ksize does not equal that sum. -/
theorem c1_counterexample :
    (set defaultOptions 0 initialState (.vnum 1) (.vstr "x") none).state.stats.ksize
      ≠ some (ksizeSum
        (set defaultOptions 0 initialState (.vnum 1) (.vstr "x") none).state.data.own) := by
  intro h
  rw [show (set defaultOptions 0 initialState (.vnum 1) (.vstr "x") none).state.stats.ksize
      = none from rfl] at h
  exact Option.noConfusion h

theorem c1_stats_invariant_witness :
    (∀ p ∈ [((0 : Int), Op.oset (.vstr "a") (.vstr "xy") none),
        ((1 : Int), Op.oget (.vstr "a") false),
        ((2 : Int), Op.oset (.vstr "a") (.vnum 3) (some 1)),
        ((2 : Int), Op.oset (.vstr "b") (.vobj [("f", .vnull)]) none),
        ((3500 : Int), Op.oget (.vstr "a") false),
        ((3500 : Int), Op.odel (.vstr "b")),
        ((3600 : Int), Op.ottl (.vstr "b") (some 2)),
        ((3600 : Int), Op.ogetTtl (.vstr "b"))],
      opGood defaultOptions p.2 = true)
    ∧ StatsInv defaultOptions (runOps defaultOptions initialState
        [((0 : Int), Op.oset (.vstr "a") (.vstr "xy") none),
        ((1 : Int), Op.oget (.vstr "a") false),
        ((2 : Int), Op.oset (.vstr "a") (.vnum 3) (some 1)),
        ((2 : Int), Op.oset (.vstr "b") (.vobj [("f", .vnull)]) none),
        ((3500 : Int), Op.oget (.vstr "a") false),
        ((3500 : Int), Op.odel (.vstr "b")),
        ((3600 : Int), Op.ottl (.vstr "b") (some 2)),
        ((3600 : Int), Op.ogetTtl (.vstr "b"))]) :=
  ⟨by decide, c1_stats_invariant defaultOptions _ (by decide)⟩

/-- C2 (code bug): `_getKeyLength` reads `key.length`, which is undefined
for a valid integer key, so it does not return the length of the key's
string representation (here: propKey 1 = "1", length 1); a set with the
brand-new integer key 1 consequently drives stats.ksize to NaN (`none`)
instead of incrementing it by 1, although the set itself succeeds. -/
theorem c2_keysize_bug :
    _getKeyLength (.vnum 1) = none
    ∧ propKey (.vnum 1) = "1"
    ∧ (set defaultOptions 0 initialState (.vnum 1) (.vstr "x") none).state.stats.ksize = none
    ∧ ksizeSum (set defaultOptions 0 initialState (.vnum 1) (.vstr "x") none).state.data.own = 1
    ∧ (set defaultOptions 0 initialState (.vnum 1) (.vstr "x") none).out = .ok true := by
  exact ⟨rfl, rfl, rfl, rfl, rfl⟩

/-- C3 counterexample: getStats does not return a read-only snapshot —
it returns the engine's own statistics record, so a caller-side field
assignment on the returned object changes what a subsequent getStats
call (on a fresh cache) reports. -/
theorem c3_counterexample :
    getStats (statsRefAssign initialState (fun st => { st with hits := 99 }))
      ≠ getStats initialState := by
  decide

/-- C3 (amended): getStats returns the live statistics record itself (an
alias of `this.stats`), not a snapshot: any caller-side assignment of a
fresh hits value through the returned object is visible to every
subsequent getStats call. -/
theorem c3_getstats_alias (s : State) (n : Int) (h : n ≠ s.stats.hits) :
    getStats (statsRefAssign s (fun st => { st with hits := n })) ≠ getStats s := by
  simp only [getStats, statsRefAssign]
  intro heq
  exact h (congrArg Stats.hits heq)

theorem c3_getstats_alias_witness :
    ((99 : Int) ≠ initialState.stats.hits)
    ∧ getStats (statsRefAssign initialState (fun st => { st with hits := 99 }))
      ≠ getStats initialState :=
  ⟨by decide, c3_getstats_alias initialState 99 (by decide)⟩

/-- C9: the falsy keys 0 and "" pass key validation (so set, get and del
operate on them normally — e.g. del removes a stored entry under key 0),
yet ttl returns false and getTtl returns undefined for them on every
cache state, without touching the map, the statistics or the entry
stored under that key. -/
theorem c9_falsy_keys (opts : Options) (now : Int) (s : State) (newTtl : Option Int) :
    ttl opts now s (.vnum 0) newTtl = ⟨s, [], .ok false⟩
    ∧ getTtl opts now s (.vnum 0) = ⟨s, [], .ok .vundefined⟩
    ∧ ttl opts now s (.vstr "") newTtl = ⟨s, [], .ok false⟩
    ∧ getTtl opts now s (.vstr "") = ⟨s, [], .ok .vundefined⟩
    ∧ _isInvalidKey (.vnum 0) = none
    ∧ _isInvalidKey (.vstr "") = none
    ∧ (∀ e : Entry, dlookup s.data.own "0" = some e →
        del opts s (.vnum 0) = ⟨⟨jsDel s.data "0",
          { s.stats with
            vsize := jsub s.stats.vsize (some (entryVal opts e)),
            ksize := jsub s.stats.ksize (_getKeyLength (.vnum 0)),
            keys := s.stats.keys - 1 }⟩,
          [Event.edel (.vnum 0) e.v], .ok 1⟩) := by
  refine ⟨?_, ?_, ?_, ?_, rfl, rfl, ?_⟩
  · simp [ttl, falsy]
  · simp [getTtl, falsy]
  · simp [ttl, falsy]
  · simp [getTtl, falsy]
  · intro e he
    exact del_single_present opts s (.vnum 0) e rfl he

theorem c9_falsy_keys_witness :
    ttl defaultOptions 5 ⟨⟨[("0", ⟨0, .vstr "x"⟩)], .objectProto⟩, zeroStats⟩
        (.vnum 0) (some 3)
      = ⟨⟨⟨[("0", ⟨0, .vstr "x"⟩)], .objectProto⟩, zeroStats⟩, [], .ok false⟩
    ∧ (del defaultOptions ⟨⟨[("0", ⟨0, .vstr "x"⟩)], .objectProto⟩, zeroStats⟩
        (.vnum 0)).out = .ok 1 := by
  refine ⟨(c9_falsy_keys defaultOptions 5 _ (some 3)).1, ?_⟩
  rw [(c9_falsy_keys defaultOptions 5
    ⟨⟨[("0", ⟨0, .vstr "x"⟩)], .objectProto⟩, zeroStats⟩
    (some 3)).2.2.2.2.2.2 ⟨0, .vstr "x"⟩ rfl]

/-- C10: mget with a non-array argument and no callback hands back the
EKEYSTYPE error object as its ordinary return value, without raising it
and without touching the map or any statistics counter, whereas an
invalid key encountered inside the array argument is thrown (also with
the state so far unchanged at that first key). -/
theorem c10_mget_arg_errors (opts : Options) (now : Int) (s : State) (arg k : JsValue)
    (ha : isArrayB arg = false) (hk : _isInvalidKey k ≠ none) :
    mget opts now s arg = ⟨s, [], .ok (.merr ⟨"EKEYSTYPE", []⟩)⟩
    ∧ mget opts now s (.varr [k]) =
      ⟨s, [], .thrown ⟨"EKEYTYPE", [("type", .vstr (typeofStr k))]⟩⟩ := by
  constructor
  · cases arg with
    | varr l => simp [isArrayB] at ha
    | vstr s' => rfl
    | vnum n => rfl
    | vbool b => rfl
    | vnull => rfl
    | vundefined => rfl
    | vobj fs => rfl
  · have hbad : _isInvalidKey k
        = some ⟨"EKEYTYPE", [("type", .vstr (typeofStr k))]⟩ := by
      unfold _isInvalidKey at hk ⊢
      split
      · rename_i hc
        rw [if_pos hc] at hk
        exact absurd rfl hk
      · rfl
    simp [mget, mgetLoop, hbad]

theorem c10_mget_arg_errors_witness :
    isArrayB JsValue.vnull = false
    ∧ _isInvalidKey JsValue.vnull ≠ none
    ∧ mget defaultOptions 0 initialState JsValue.vnull
      = ⟨initialState, [], .ok (.merr ⟨"EKEYSTYPE", []⟩)⟩
    ∧ mget defaultOptions 0 initialState (.varr [JsValue.vnull])
      = ⟨initialState, [], .thrown ⟨"EKEYTYPE", [("type", .vstr "object")]⟩⟩ := by
  have h := c10_mget_arg_errors defaultOptions 0 initialState JsValue.vnull JsValue.vnull
    rfl (by simp [_isInvalidKey, typeofStr])
  exact ⟨rfl, by simp [_isInvalidKey, typeofStr], h.1, h.2⟩

end NodeCache

namespace NodeCache

/-- C5: a get of a stored entry whose nonzero expiry lies in the past (with
the error-on-missing policy inactive) removes the entry exactly as del
would — same resulting map, and the same statistics except for one extra
miss — emits the expired notification carrying the key and the unwrapped
value, counts no hit, and returns the undefined sentinel, never the
expired value. -/
theorem c5_get_expired (opts : Options) (now : Int) (s : State) (key : JsValue)
    (e : Entry) (hv : _isInvalidKey key = none)
    (hl : dlookup s.data.own (propKey key) = some e)
    (h0 : e.t ≠ 0) (h1 : e.t < now)
    (hpol : opts.errorOnMissing = false) :
    (get opts now s key false).state.data = jsDel s.data (propKey key)
    ∧ (get opts now s key false).state.data = (del opts s key).state.data
    ∧ (get opts now s key false).state.stats
      = { (del opts s key).state.stats with
          misses := (del opts s key).state.stats.misses + 1 }
    ∧ (get opts now s key false).events
      = (del opts s key).events ++ [Event.eexpired key (_unwrap (.entry e))]
    ∧ (get opts now s key false).out = .ok JsValue.vundefined
    ∧ (get opts now s key false).state.stats.misses = s.stats.misses + 1
    ∧ (get opts now s key false).state.stats.hits = s.stats.hits := by
  have hdel := del_single_present opts s key e hv hl
  unfold get
  simp only [hv, jsGet_own s.data (propKey key) e hl]
  rw [check_stale opts now s key e hv hl h0 h1]
  split
  · rename_i hfr
    simp at hfr
  · unfold getMiss
    simp [hpol, hdel]

theorem c5_get_expired_witness :
    (get defaultOptions 10
        ⟨⟨[("a", ⟨5, .vstr "x"⟩)], .objectProto⟩, ⟨0, 0, 1, some 1, some 1⟩⟩
        (.vstr "a") false).out = .ok JsValue.vundefined
    ∧ (get defaultOptions 10
        ⟨⟨[("a", ⟨5, .vstr "x"⟩)], .objectProto⟩, ⟨0, 0, 1, some 1, some 1⟩⟩
        (.vstr "a") false).state.stats.misses = 1
    ∧ (get defaultOptions 10
        ⟨⟨[("a", ⟨5, .vstr "x"⟩)], .objectProto⟩, ⟨0, 0, 1, some 1, some 1⟩⟩
        (.vstr "a") false).state.data.own = []
    ∧ Event.eexpired (.vstr "a") (.vstr "x")
      ∈ (get defaultOptions 10
        ⟨⟨[("a", ⟨5, .vstr "x"⟩)], .objectProto⟩, ⟨0, 0, 1, some 1, some 1⟩⟩
        (.vstr "a") false).events := by
  have h := c5_get_expired defaultOptions 10
    ⟨⟨[("a", ⟨5, .vstr "x"⟩)], .objectProto⟩, ⟨0, 0, 1, some 1, some 1⟩⟩
    (.vstr "a") ⟨5, .vstr "x"⟩ rfl rfl (by decide) (by decide) rfl
  refine ⟨h.2.2.2.2.1, by simpa using h.2.2.2.2.2.1, ?_, ?_⟩
  · rw [h.1]
    rfl
  · rw [h.2.2.2.1]
    simp [_unwrap, propV, looseNullish]

theorem ttl_fresh_nonneg (opts : Options) (now : Int) (s : State) (key : JsValue)
    (e : Entry) (newTtl : Option Int) (eff : Int)
    (heff : eff = (match newTtl with
      | some x => if x = 0 then opts.stdTTL else x
      | none => opts.stdTTL))
    (hfal : falsy key = false) (hv : _isInvalidKey key = none)
    (hd : dlookup s.data.own (propKey key) = some e)
    (hfresh : ¬(e.t ≠ 0 ∧ e.t < now))
    (hpos : (0 : Int) ≤ eff) :
    ttl opts now s key newTtl = ⟨⟨jsSet s.data (propKey key)
        (_wrap opts now e.v (some eff)), s.stats⟩, [], .ok true⟩ := by
  subst heff
  simp only [ttl, if_neg (by simp [hfal] : ¬falsy key = true), hv,
    jsGet_own s.data (propKey key) e hd,
    check_fresh_entry opts now s key e hfresh]
  rw [if_pos hpos]
  simp [propV]

end NodeCache

namespace NodeCache

/-- C4 (amended): for a truthy valid key that is present and fresh, ttl
rewraps the entry with the existing stored value and the effective ttl,
returning true, and the rewrapped expiry is 0 (never) when the effective
ttl is 0 and now + eff*1000 otherwise.  The effective ttl is the given
newTtl when that is nonzero, and the configured default stdTTL when
newTtl is omitted or equals 0 — the code's `if (!ttl) ttl = stdTTL`
treats the falsy 0 as absent, so newTtl = 0 produces a never-expiring
entry only when stdTTL = 0. -/
theorem c4_ttl_rewrap (opts : Options) (now : Int) (s : State) (key : JsValue)
    (e : Entry) (newTtl : Option Int) (eff : Int)
    (heff : eff = (match newTtl with
      | some x => if x = 0 then opts.stdTTL else x
      | none => opts.stdTTL))
    (hstd : 0 ≤ opts.stdTTL)
    (hfal : falsy key = false) (hv : _isInvalidKey key = none)
    (hd : dlookup s.data.own (propKey key) = some e)
    (hfresh : e.t = 0 ∨ now ≤ e.t)
    (ht : ∀ x, newTtl = some x → 0 ≤ x) :
    ttl opts now s key newTtl
      = ⟨⟨jsSet s.data (propKey key) (_wrap opts now e.v (some eff)), s.stats⟩,
        [], .ok true⟩
    ∧ (_wrap opts now e.v (some eff)).t
      = (if eff = 0 then 0 else now + eff * 1000) := by
  have hnst : ¬(e.t ≠ 0 ∧ e.t < now) := by
    rcases hfresh with h | h
    · exact fun hc => hc.1 h
    · exact fun hc => absurd hc.2 (by omega)
  have hpos : (0 : Int) ≤ eff := by
    rw [heff]
    cases newTtl with
    | none => exact hstd
    | some x =>
      show (0 : Int) ≤ if x = 0 then opts.stdTTL else x
      by_cases hx : x = 0
      · rw [if_pos hx]
        exact hstd
      · rw [if_neg hx]
        exact ht x rfl
  exact ⟨ttl_fresh_nonneg opts now s key e newTtl eff heff hfal hv hd hnst hpos, rfl⟩

/-- C4 counterexample: with stdTTL = 10 configured, for a present, fresh
key the call ttl("a", 0) does not rewrap the entry with ttl 0 (never
expire) as the claim states — the code replaces the falsy 0 by stdTTL
and stores the expiry 5000 + 10*1000 = 15000, which is not the
never-expires sentinel 0. -/
theorem c4_counterexample :
    (ttl { defaultOptions with stdTTL := 10 } 5000
        ⟨⟨[("a", ⟨0, .vstr "x"⟩)], .objectProto⟩, zeroStats⟩
        (.vstr "a") (some 0)).out = .ok true
    ∧ dlookup (ttl { defaultOptions with stdTTL := 10 } 5000
        ⟨⟨[("a", ⟨0, .vstr "x"⟩)], .objectProto⟩, zeroStats⟩
        (.vstr "a") (some 0)).state.data.own "a"
      = some ⟨15000, .vstr "x"⟩
    ∧ (15000 : Int) ≠ 0 := by
  exact ⟨rfl, rfl, by decide⟩

theorem c4_ttl_rewrap_witness :
    (0 : Int) ≤ defaultOptions.stdTTL
    ∧ ttl defaultOptions 7 ⟨⟨[("a", ⟨0, .vstr "x"⟩)], .objectProto⟩, zeroStats⟩
        (.vstr "a") (some 5)
      = ⟨⟨⟨[("a", ⟨5007, .vstr "x"⟩)], .objectProto⟩, zeroStats⟩, [], .ok true⟩ := by
  constructor
  · decide
  · have h := (c4_ttl_rewrap defaultOptions 7
      ⟨⟨[("a", ⟨0, .vstr "x"⟩)], .objectProto⟩, zeroStats⟩
      (.vstr "a") ⟨0, .vstr "x"⟩ (some 5) 5 rfl (by decide) rfl rfl rfl (Or.inl rfl)
      (fun x hx => by cases hx; decide)).1
    rw [h]
    rfl

end NodeCache

namespace NodeCache

end NodeCache

namespace NodeCache

end NodeCache
